import Mathlib

/-!
Shallow embedding of `gridfinity/__init__.py` from the
`custom-gridfinity-bins` repository, together with proofs of the
specification claims about it.

Conventions of the embedding:
* Python floats are modelled as rationals (`ℚ`); every constant of the
  source is carried over exactly, so exact equalities proved here imply
  the spec's "within 1e-6 mm" statements a fortiori.
* Python exceptions (`InvalidPropertyError`, `IncorrectNumberOfRowsError`,
  `ZeroDivisionError`) become an explicit error type returned through
  `Except`.
* `warnings.warn` calls become values of type `GWarning` collected in a
  list, tagged by the source location that emits them (the per-bucket
  warning inside `draw_bucket_sketch` versus the aggregate warning at the
  end of `draw_buckets`).
* Calls into the cadquery geometry kernel are modelled by the data that
  the source passes to them: sketches become records of their rectangle
  sizes, fillet radii and move vectors, and the assembly sequence of
  `make_gridfinity_box` becomes a trace of kernel operations.
-/

deriving instance DecidableEq for Except

namespace Gridfinity

/-- Module-level constant `BOTTOM_THICKNESS = 2` of the source. -/
def BOTTOM_THICKNESS : ℚ := 2

/-- Module-level constant `BASE_HEIGHT = 5` of the source. -/
def BASE_HEIGHT : ℚ := 5

/-- Module-level constant `MATE_HEIGHT = 5` of the source. -/
def MATE_HEIGHT : ℚ := 5

/-- The exceptions raised by the source module, plus Python's built-in
`ZeroDivisionError`, which an unguarded `x / 0` raises. -/
inductive GridfinityError
  | invalidProperty (msg : String)
  | incorrectNumberOfRows
  | zeroDivision
deriving Repr, DecidableEq

/-- The warning classes the source emits through `warnings.warn`.  The two
`smallDimensions` constructors both model `SmallDimensionsWarning`; they are
tagged by emission site: `smallDimensionsPerBucket` is the warning raised
inside `draw_bucket_sketch`, `smallDimensionsAggregate` the one raised at the
end of `draw_buckets` when `is_drawer_too_small` is set.
`CannotDrawLabelLedgesWarning` is declared in the source but never emitted. -/
inductive GWarning
  | smallDimensionsPerBucket
  | smallDimensionsAggregate
  | cannotDrawLabelLedges
deriving Repr, DecidableEq

/-- The dataclass `GridfinityDimension(x, y, z)` (grid units, Python ints). -/
structure GridfinityDimension where
  x : ℤ
  y : ℤ
  z : ℤ
deriving Repr, DecidableEq

/-- Property `x_mm`: `self.x * 42 - 0.5`. -/
def GridfinityDimension.x_mm (d : GridfinityDimension) : ℚ := d.x * 42 - 0.5

/-- Property `y_mm`: `self.y * 42 - 0.5`. -/
def GridfinityDimension.y_mm (d : GridfinityDimension) : ℚ := d.y * 42 - 0.5

/-- Property `z_mm`: `self.z * 7`. -/
def GridfinityDimension.z_mm (d : GridfinityDimension) : ℚ := d.z * 7

/-- The validation performed by `GridfinityDimension.__post_init__`:
construction fails with `InvalidPropertyError` when `x < 1` or `y < 1`
(first check) or when `z < 2` (second check). -/
def mkGridfinityDimension (x y z : ℤ) : Except GridfinityError GridfinityDimension :=
  if x < 1 ∨ y < 1 then
    .error (.invalidProperty "Width or length cannot be less than 1.")
  else if z < 2 then
    .error (.invalidProperty "Units high cannot be less than 2.")
  else
    .ok ⟨x, y, z⟩

/-- The `__post_init__` invariant as a predicate: the dimensions that
construct successfully. -/
def GridfinityDimension.valid (d : GridfinityDimension) : Prop :=
  1 ≤ d.x ∧ 1 ≤ d.y ∧ 2 ≤ d.z

instance (d : GridfinityDimension) : Decidable d.valid := by
  unfold GridfinityDimension.valid; infer_instance

/-- One row of the `Divisions` type alias
`List[Union[List[float], int]]`: either an int `N` or a list of weights. -/
inductive Row
  | count (n : ℤ)
  | weights (ws : List ℚ)
deriving Repr, DecidableEq

/-- Type alias `Divisions = List[Union[List[float], int]]`. -/
abbrev Divisions := List Row

/-- The row normalization at the top of the loop body of `draw_buckets`:
`if isinstance(row, int): row = [1] * row`.  Python's `[1] * n` is empty
for `n ≤ 0`, hence `Int.toNat`. -/
def normalizeRow : Row → List ℚ
  | .count n => List.replicate n.toNat (1 : ℚ)
  | .weights ws => ws

/-- The dataclass `Properties`. -/
structure Properties where
  dimension : GridfinityDimension
  divisions : Divisions
  wall_thickness : ℚ
  draw_finger_scoop : Bool
  draw_label_ledge : Bool
  make_magnet_hole : Bool
  make_screw_hole : Bool
deriving Repr, DecidableEq

/-- The validation performed by `Properties.__post_init__`:
`len(divisions) != dimension.y` raises `IncorrectNumberOfRowsError`. -/
def mkProperties (p : Properties) : Except GridfinityError Properties :=
  if (p.divisions.length : ℤ) ≠ p.dimension.y then
    .error .incorrectNumberOfRows
  else
    .ok p

/-- Local constant `small_drawer_width = 15` of `draw_buckets`. -/
def small_drawer_width : ℚ := 15

/-- The bucket-width computation of one row in `draw_buckets`:
`buckets_x = [(ratio / sum(row)) * (dimension.x_mm - number_of_x_walls *
wall_thickness) for ratio in row]` with `number_of_x_walls = len(row) + 1`,
after int-row normalization.  Python evaluates `ratio / sum(row)` per list
element, so an empty row performs no division, while a non-empty row whose
weights sum to zero raises `ZeroDivisionError` at the first element. -/
def rowBucketWidths (d : GridfinityDimension) (wall_thickness : ℚ) (row : Row) :
    Except GridfinityError (List ℚ) :=
  let r := normalizeRow row
  if r.isEmpty then .ok []
  else if r.sum = 0 then .error .zeroDivision
  else .ok (r.map (fun ratio =>
    (ratio / r.sum) * (d.x_mm - ((r.length : ℚ) + 1) * wall_thickness)))

/-- The data `draw_bucket_sketch` passes to the cadquery kernel: the
rectangle drawn, the fillet radius applied to its vertices, and the two
`moved` translations. -/
structure Sketch where
  rect_x : ℚ
  rect_y : ℚ
  fillet_radius : ℚ
  move1 : ℚ × ℚ
  move2 : ℚ × ℚ
deriving Repr, DecidableEq

/-- Function `draw_bucket_sketch`: warns (`SmallDimensionsWarning`) when
`x_mm < small_drawer_width`, then builds a rect of `x_mm × y_mm`, fillets
its vertices by `3.75 - wall_thickness` (no clamping in the source), and
moves it by `(x_mm/2, -y_mm/2)` and then by
`(-support_x_mm/2 + x_origin, support_y_mm/2 - y_origin)`. -/
def draw_bucket_sketch (x_mm y_mm support_x_mm support_y_mm x_origin y_origin
    wall_thickness small_width : ℚ) : List GWarning × Sketch :=
  ((if x_mm < small_width then [GWarning.smallDimensionsPerBucket] else []),
   { rect_x := x_mm
     rect_y := y_mm
     fillet_radius := 3.75 - wall_thickness
     move1 := (x_mm / 2, -y_mm / 2)
     move2 := (-support_x_mm / 2 + x_origin, support_y_mm / 2 - y_origin) })

/-- The inner loop `for bucket_x in buckets_x` of `draw_buckets`: one sketch
per bucket width, threading `x_origin` by `x_origin + bucket_x +
wall_thickness` after each bucket. -/
def sketchRow (d : GridfinityDimension) (wall_thickness bucket_y y_origin : ℚ) :
    ℚ → List ℚ → List GWarning × List Sketch
  | _, [] => ([], [])
  | x_origin, bucket_x :: rest =>
    let ws := draw_bucket_sketch bucket_x bucket_y d.x_mm d.y_mm x_origin y_origin
      wall_thickness small_drawer_width
    let rec_rest := sketchRow d wall_thickness bucket_y y_origin
      (x_origin + bucket_x + wall_thickness) rest
    (ws.1 ++ rec_rest.1, ws.2 :: rec_rest.2)

/-- The outer loop `for row in divisions` of `draw_buckets`: computes the
row's bucket widths, the uniform `bucket_y = (y_mm - (len(divisions)+1) *
wall_thickness) / len(divisions)`, emits the row's sketches starting at
`x_origin = wall_thickness`, and steps `y_origin` by
`bucket_y + wall_thickness`. -/
def sketchRows (d : GridfinityDimension) (wall_thickness : ℚ) (divisions_len : ℕ) :
    ℚ → List Row → Except GridfinityError (List GWarning × List Sketch)
  | _, [] => .ok ([], [])
  | y_origin, row :: rest =>
    match rowBucketWidths d wall_thickness row with
    | .error e => .error e
    | .ok widths =>
      let bucket_y := (d.y_mm - ((divisions_len : ℚ) + 1) * wall_thickness) / (divisions_len : ℚ)
      let first := sketchRow d wall_thickness bucket_y y_origin wall_thickness widths
      match sketchRows d wall_thickness divisions_len (y_origin + bucket_y + wall_thickness) rest with
      | .error e => .error e
      | .ok later => .ok (first.1 ++ later.1, first.2 ++ later.2)

/-- Function `draw_buckets`: runs the row loops starting at `y_origin =
wall_thickness`, and afterwards emits the aggregate
`SmallDimensionsWarning` if the local flag `is_drawer_too_small` is set —
the source initializes it to `False` and never assigns it again. -/
def draw_buckets (d : GridfinityDimension) (divisions : Divisions)
    (wall_thickness : ℚ) : Except GridfinityError (List GWarning × List Sketch) :=
  let is_drawer_too_small := false
  match sketchRows d wall_thickness divisions.length wall_thickness divisions with
  | .error e => .error e
  | .ok r =>
    .ok ((if is_drawer_too_small then r.1 ++ [GWarning.smallDimensionsAggregate] else r.1),
         r.2)

/-! ### Label ledge (`draw_label_ledge`) -/

/-- The data of one label-ledge sketch: the row index, the `last_offset`
and `ledge_height` values in force when the sketch is built, whether the
diagonal closing segment replaces the second vertical drop
(`ledge_height < ledge_length`), and the two `moved` translations. -/
structure LedgeRow where
  i : ℕ
  last_offset : ℚ
  ledge_height : ℚ
  has_diagonal : Bool
  move1 : ℚ × ℚ
  move2 : ℚ × ℚ
deriving Repr, DecidableEq

/-- One iteration body of the `for i in range(0, dimension.y)` loop of
`draw_label_ledge`: at `i == dimension.y - 1` the state is overwritten to
`last_offset = back_ledge_offset` and
`ledge_height = min(max_ledge_height, ledge_length + last_offset)`. -/
def ledgeStep (d : GridfinityDimension) (max_ledge_height ledge_length
    back_ledge_offset : ℚ) (st : ℚ × ℚ) (i : ℕ) : ℚ × ℚ :=
  if (i : ℤ) = d.y - 1 then
    (back_ledge_offset, min max_ledge_height (ledge_length + back_ledge_offset))
  else st

/-- The loop of `draw_label_ledge`, threading `(last_offset, ledge_height)`
through the iterations and emitting one `LedgeRow` per row. -/
def ledgeRowsGo (d : GridfinityDimension) (wall_thickness bucket_length
    max_ledge_height ledge_length back_ledge_offset : ℚ) :
    List ℕ → ℚ × ℚ → List LedgeRow
  | [], _ => []
  | i :: rest, st =>
    let st := ledgeStep d max_ledge_height ledge_length back_ledge_offset st i
    { i := i
      last_offset := st.1
      ledge_height := st.2
      has_diagonal := decide (st.2 < ledge_length)
      move1 := (-0.5 - (0.5 * (d.y : ℚ) - 1) * (bucket_length + 1),
                (d.z_mm - wall_thickness) / 2)
      move2 := ((i : ℚ) * (bucket_length + 1) - st.1, 0) } ::
    ledgeRowsGo d wall_thickness bucket_length max_ledge_height ledge_length
      back_ledge_offset rest st

/-- Function `draw_label_ledge`: `bucket_length = (y_mm - (y+1)*wall_thickness)/y`,
`ledge_length = 12 + 0.75`, `back_ledge_offset = 2.9`,
`max_ledge_height = z_mm - 5 - 5 - wall_thickness`, initial state
`last_offset = 0`, `ledge_height = min(max_ledge_height, ledge_length)`. -/
def draw_label_ledge (d : GridfinityDimension) (wall_thickness : ℚ) :
    List LedgeRow :=
  let bucket_length := (d.y_mm - ((d.y : ℚ) + 1) * wall_thickness) / (d.y : ℚ)
  let ledge_length : ℚ := 12 + 0.75
  let back_ledge_offset : ℚ := 2.9
  let max_ledge_height := d.z_mm - 5 - 5 - wall_thickness
  ledgeRowsGo d wall_thickness bucket_length max_ledge_height ledge_length
    back_ledge_offset (List.range d.y.toNat) (0, min max_ledge_height ledge_length)

/-! ### Finger scoops (`draw_finger_scoops`) -/

/-- Value `bucket_length` as computed inside `draw_finger_scoops`: the source
hardcodes the wall thickness as `0.8` here
(`(dimension.y_mm - (dimension.y + 1)*0.8) / dimension.y`); the function
does not receive `wall_thickness` at all. -/
def scoopBucketLength (d : GridfinityDimension) : ℚ :=
  (d.y_mm - ((d.y : ℚ) + 1) * 0.8) / (d.y : ℚ)

/-- Value `scoop_radius = min(dimension.z_mm * 0.3, bucket_length * 0.9)` as
computed by `draw_finger_scoops` (with the hardcoded-0.8 bucket length). -/
def scoop_radius (d : GridfinityDimension) : ℚ :=
  min (d.z_mm * 0.3) (scoopBucketLength d * 0.9)

/-- Modelled from the spec: the finger-scoop radius the specification
describes, `min(0.3 · z_mm, 0.9 · row_depth)` with the row depth derived
from the ACTUAL wall thickness, `row_depth = (y_mm - (y+1)·wall_thickness)/y`.
Used only to compare against the source's `scoop_radius`. -/
def scoop_radius_spec (d : GridfinityDimension) (wall_thickness : ℚ) : ℚ :=
  min (0.3 * d.z_mm) (0.9 * ((d.y_mm - ((d.y : ℚ) + 1) * wall_thickness) / (d.y : ℚ)))

/-- The data of one finger-scoop sketch: row index, the rect/circle radius
and the two `moved` translations. -/
structure ScoopRow where
  i : ℕ
  radius : ℚ
  move1 : ℚ × ℚ
  move2 : ℚ × ℚ
deriving Repr, DecidableEq

/-- The loop of `draw_finger_scoops`: one quarter-circle cutout sketch per
row `i`, all with the same `scoop_radius`; the second move shifts row `i`
by `i * (bucket_length + 1)` plus the extra `1.6` inset applied only when
`i == 0`. -/
def draw_finger_scoops (d : GridfinityDimension) : List ScoopRow :=
  let bucket_length := scoopBucketLength d
  let r := scoop_radius d
  (List.range d.y.toNat).map (fun i =>
    { i := i
      radius := r
      move1 := (r / 2 - 0.5 * bucket_length * (d.y : ℚ) - ⌊(d.y : ℚ) / 2⌋ +
                  (if d.y % 2 = 0 then 0.5 else 0),
                r / 2 - (d.z_mm - BOTTOM_THICKNESS) / 2)
      move2 := ((i : ℚ) * (bucket_length + 1) + (if i = 0 then 1.6 else 0), 0) })

/-! ### Hole placement (`draw_magnet_holes`, `draw_screw_holes`) -/

/-- The centers of the base tiles produced by `rarray(42, 42, x, y)`: a
grid with 42 mm pitch centered on the origin. -/
def tileCenters (d : GridfinityDimension) : List (ℚ × ℚ) :=
  (List.range d.x.toNat).flatMap (fun (i : ℕ) =>
    (List.range d.y.toNat).map (fun (j : ℕ) =>
      ((i : ℚ) * 42 - ((d.x : ℚ) - 1) * 21,
       (j : ℚ) * 42 - ((d.y : ℚ) - 1) * 21)))

/-- The vertices of the construction `rect(26, 26)` centered on a point:
the four corners of a 26 mm × 26 mm square. -/
def rect26Corners : List (ℚ × ℚ) := [(-13, -13), (13, -13), (-13, 13), (13, 13)]

/-- Magnet-hole centers: `draw_magnet_holes` places
`rect(26, 26, forConstruction=True).vertices()` on the bottom face of each
base tile (the holes are cut per tile inside `draw_base`, and `draw_bases`
replicates the tile across the grid), so the centers are the four corners
of a 26 mm square around each tile center.  The partition layout plays no
part: the function takes only the dimension. -/
def magnetHolePositions (d : GridfinityDimension) : List (ℚ × ℚ) :=
  (tileCenters d).flatMap (fun c => rect26Corners.map (fun o => (c.1 + o.1, c.2 + o.2)))

/-- Magnet hole call `hole(6.5, 2 + 0.5)`: diameter 6.5 mm, depth 2.5 mm. -/
def magnet_hole_diameter : ℚ := 6.5

/-- Depth argument of the magnet `hole` call, `2 + 0.5`. -/
def magnet_hole_depth : ℚ := 2 + 0.5

/-- The counterbore parameters `draw_screw_holes` passes to
`cboreHole(3, 6.5, 2.4)`. -/
structure CboreSpec where
  diameter : ℚ
  cboreDiameter : ℚ
  cboreDepth : ℚ
deriving Repr, DecidableEq

/-- Call `cboreHole(3, 6.5, 2.4)` of `draw_screw_holes`. -/
def screw_hole_cbore : CboreSpec := { diameter := 3, cboreDiameter := 6.5, cboreDepth := 2.4 }

/-- Screw-hole centers: `draw_screw_holes` first mutates the workplane
normal (`self.plane.zDir = Vector(0, 0, -1)`), but cadquery string
selectors are evaluated in GLOBAL axes, so `faces('>Z')` still selects the
single topmost face of the partitioned box — its top rim — and the
mutation only affects the drilling direction.  `rect(26, 26,
forConstruction=True)` then creates one rectangle centered at that one
face's center, so `cboreHole(3, 6.5, 2.4)` is applied at exactly four
positions, the corners of one 26 mm × 26 mm square around the rim face's
center, regardless of the grid size.  The center itself is kernel-computed
face geometry (the center of the rim face, which varies with the cavity
layout); it is abstracted here as the `center` parameter. -/
def screwHolePositions (center : ℚ × ℚ) : List (ℚ × ℚ) :=
  rect26Corners.map (fun o => (center.1 + o.1, center.2 + o.2))

/-! ### Assembly order (`make_gridfinity_box`) -/

/-- The geometry-kernel operations issued by the assembly, abstracted to
their identity (the operands are modelled by the functions above). -/
inductive KernelOp
  | baseTileSolid
  | magnetHoles
  | locateTile
  | bucketCavities
  | screwHoles
  | fingerScoops
  | labelLedges
  | mateLip
deriving Repr, DecidableEq

/-- Trace of `draw_base(with_magnets)`: the tile solid is built and, when
`with_magnets` is set, `draw_magnet_holes` is applied to it — before the
caller locates the tile. -/
def drawBaseTrace (with_magnets : Bool) : List KernelOp :=
  [KernelOp.baseTileSolid] ++ (if with_magnets then [KernelOp.magnetHoles] else [])

/-- Trace of `draw_bases`: `rarray(42, 42, x, y).eachpoint(...)` evaluates
`drawBase(draw_magnet_holes).val().located(loc)` once per grid point, so
each of the `x*y` tiles is built (holes included, when enabled) and then
located. -/
def drawBasesTrace (d : GridfinityDimension) (with_magnets : Bool) : List KernelOp :=
  (List.range (d.x.toNat * d.y.toNat)).flatMap
    (fun _ => drawBaseTrace with_magnets ++ [KernelOp.locateTile])

/-- Trace of `make_gridfinity_box`: bases, buckets, then screw holes /
finger scoops / label ledges each gated by its flag, then the mate lip. -/
def make_gridfinity_box_trace (p : Properties) : List KernelOp :=
  drawBasesTrace p.dimension p.make_magnet_hole ++
  [KernelOp.bucketCavities] ++
  (if p.make_screw_hole then [KernelOp.screwHoles] else []) ++
  (if p.draw_finger_scoop then [KernelOp.fingerScoops] else []) ++
  (if p.draw_label_ledge then [KernelOp.labelLedges] else []) ++
  [KernelOp.mateLip]

/-- Total number of buckets a `Divisions` value describes: the sum of the
normalized row lengths. -/
def total_buckets (divs : Divisions) : ℕ :=
  (divs.map (fun r => (normalizeRow r).length)).sum

/-! ## Theorems -/

/-- C8: `GridfinityDimension` construction fails (with the
`InvalidPropertyError` kind, the source's name for the spec's
`InvalidDimension`) if and only if `x < 1`, `y < 1` or `z < 2`; the
constructor runs no geometry.  In particular `GridfinityDimension(1,1,1)`
fails and `GridfinityDimension(1,1,2)` succeeds. -/
theorem mkGridfinityDimension_invalid_iff (x y z : ℤ) :
    ((∃ e, mkGridfinityDimension x y z = .error e) ↔ (x < 1 ∨ y < 1 ∨ z < 2)) ∧
    (∀ e, mkGridfinityDimension x y z = .error e → ∃ msg, e = .invalidProperty msg) ∧
    (¬(x < 1 ∨ y < 1 ∨ z < 2) → mkGridfinityDimension x y z = .ok ⟨x, y, z⟩) ∧
    mkGridfinityDimension 1 1 1 =
      .error (.invalidProperty "Units high cannot be less than 2.") ∧
    mkGridfinityDimension 1 1 2 = .ok ⟨1, 1, 2⟩ := by
  refine ⟨?_, ?_, ?_, by decide, by decide⟩
  · unfold mkGridfinityDimension
    split_ifs with h1 h2 <;> simp <;> omega
  · unfold mkGridfinityDimension
    split_ifs with h1 h2 <;> intro e he <;> simp at he
    · exact ⟨_, he.symm⟩
    · exact ⟨_, he.symm⟩
  · intro h
    unfold mkGridfinityDimension
    split_ifs with h1 h2
    · omega
    · omega
    · rfl

/-- C3 counterexample: the source applies `fillet(3.75 - wall_thickness)`
with no clamping, so at `wall_thickness = 4` the fillet radius is `-0.25`,
which is negative and differs from the claimed `max 0 (3.75 - 4) = 0`. -/
theorem fillet_radius_negative_at_4 :
    (draw_bucket_sketch 20 20 41.5 41.5 0.8 0.8 4 15).2.fillet_radius = -0.25 ∧
    (-0.25 : ℚ) < 0 ∧ (-0.25 : ℚ) ≠ max 0 ((3.75 : ℚ) - 4) := by
  refine ⟨by norm_num [draw_bucket_sketch], by norm_num, by norm_num⟩

/-- C3 amended: the corner radius applied to each bucket's sketch is
`3.75 - wall_thickness` with NO clamping; it is negative exactly when
`wall_thickness > 3.75` (so for `wall_thickness ≥ 3.75` the source passes a
non-positive radius to the kernel instead of flooring it at 0). -/
theorem fillet_radius_unclamped (x y sx sy xo yo wt sw : ℚ) :
    (draw_bucket_sketch x y sx sy xo yo wt sw).2.fillet_radius = 3.75 - wt ∧
    ((draw_bucket_sketch x y sx sy xo yo wt sw).2.fillet_radius < 0 ↔ 3.75 < wt) := by
  refine ⟨rfl, ?_⟩
  show (3.75 : ℚ) - wt < 0 ↔ 3.75 < wt
  constructor <;> intro h <;> linarith

/-- C6 counterexample: `draw_finger_scoops` hardcodes the wall thickness as
`0.8` when computing the row depth, so with `wall_thickness = 19` on a
1×1×2 bin the radius the source computes (4.2) differs from the claimed
`min(0.3·z_mm, 0.9·row_depth)` with the actual wall thickness (3.15). -/
theorem scoop_radius_ignores_wall_thickness :
    scoop_radius ⟨1, 1, 2⟩ ≠ scoop_radius_spec ⟨1, 1, 2⟩ 19 := by
  norm_num [scoop_radius, scoop_radius_spec, scoopBucketLength,
    GridfinityDimension.y_mm, GridfinityDimension.z_mm, min_def]

/-- C6 amended: the finger-scoop radius equals
`min(0.3·z_mm, 0.9·row_depth)` with the row depth computed from a HARDCODED
0.8 mm wall thickness, not the actual `wall_thickness` (which
`draw_finger_scoops` does not even receive); all rows share that radius,
and the fixed extra 1.6 mm inset is applied exactly to the first row. -/
theorem draw_finger_scoops_radius (d : GridfinityDimension) :
    scoop_radius d = scoop_radius_spec d 0.8 ∧
    (∀ r ∈ draw_finger_scoops d, r.radius = scoop_radius d) ∧
    (∀ r ∈ draw_finger_scoops d,
      r.move2 = ((r.i : ℚ) * (scoopBucketLength d + 1) +
        (if r.i = 0 then 1.6 else 0), 0)) := by
  refine ⟨?_, ?_, ?_⟩
  · simp only [scoop_radius, scoop_radius_spec, scoopBucketLength]
    congr 1 <;> ring
  · intro r hr
    simp only [draw_finger_scoops, List.mem_map] at hr
    obtain ⟨i, _, rfl⟩ := hr
    rfl
  · intro r hr
    simp only [draw_finger_scoops, List.mem_map] at hr
    obtain ⟨i, _, rfl⟩ := hr
    rfl

theorem sum_map_mul_const (l : List ℚ) (c : ℚ) :
    (l.map (fun w => w * c)).sum = l.sum * c := by
  induction l with
  | nil => simp
  | cons a t ih => simp [ih, add_mul]

theorem rowBucketWidths_eq (d : GridfinityDimension) (wall_thickness : ℚ) (row : Row)
    (hne : normalizeRow row ≠ []) (hS : (normalizeRow row).sum ≠ 0) :
    rowBucketWidths d wall_thickness row = .ok ((normalizeRow row).map (fun w =>
      (w / (normalizeRow row).sum) *
        (d.x_mm - (((normalizeRow row).length : ℚ) + 1) * wall_thickness))) := by
  unfold rowBucketWidths
  have hempty : (normalizeRow row).isEmpty = false := by
    cases h : normalizeRow row with
    | nil => exact absurd h hne
    | cons a t => rfl
  simp [hempty, hS]

/-- C1: for every dimension, positive wall thickness and partition row with
positive weights (an integer row `N ≥ 1` normalizes to `N` weights of 1),
the computed bucket widths are `weight[i]/sum(weights) · (x_mm −
(numCols+1)·wall_thickness)`; their sum plus `(numCols+1)·wall_thickness`
equals `dimension.x_mm` exactly (hence within the spec's 1e-6 mm), the
widths are a common positive-ratio rescaling of the input weights (so
weighted rows preserve the weight ratios), and integer rows yield equal
widths. -/
theorem rowBucketWidths_ok (d : GridfinityDimension) (wall_thickness : ℚ) (row : Row)
    (hne : normalizeRow row ≠ [])
    (hpos : ∀ w ∈ normalizeRow row, 0 < w) :
    ∃ widths, rowBucketWidths d wall_thickness row = .ok widths ∧
      widths = (normalizeRow row).map (fun w =>
        (w / (normalizeRow row).sum) *
          (d.x_mm - (((normalizeRow row).length : ℚ) + 1) * wall_thickness)) ∧
      widths.sum + (((normalizeRow row).length : ℚ) + 1) * wall_thickness = d.x_mm ∧
      (∃ c : ℚ, widths = (normalizeRow row).map (fun w => w * c)) ∧
      (∀ n : ℤ, row = .count n → ∀ a ∈ widths, ∀ b ∈ widths, a = b) := by
  have hS : 0 < (normalizeRow row).sum := List.sum_pos _ hpos hne
  have hSne : (normalizeRow row).sum ≠ 0 := ne_of_gt hS
  have hfun : (fun w : ℚ => (w / (normalizeRow row).sum) *
      (d.x_mm - (((normalizeRow row).length : ℚ) + 1) * wall_thickness)) =
      (fun w : ℚ => w *
        ((d.x_mm - (((normalizeRow row).length : ℚ) + 1) * wall_thickness) /
          (normalizeRow row).sum)) := by
    funext w; ring
  refine ⟨_, rowBucketWidths_eq d wall_thickness row hne hSne, rfl, ?_, ?_, ?_⟩
  · rw [hfun, sum_map_mul_const, mul_comm, div_mul_cancel₀ _ hSne]
    ring
  · exact ⟨_, by rw [hfun]⟩
  · intro n hn a ha b hb
    rw [hn] at ha hb
    simp only [normalizeRow, List.map_replicate] at ha hb
    rw [List.eq_of_mem_replicate ha, List.eq_of_mem_replicate hb]

/-- Witness for C1: the theorem applied to the 1×1×2 bin, wall thickness
0.8 and the weighted row `[2, 1]`. -/
theorem rowBucketWidths_ok_witness :
    normalizeRow (Row.weights [2, 1]) ≠ [] ∧
    (∀ w ∈ normalizeRow (Row.weights [2, 1]), 0 < w) ∧
    (∃ widths, rowBucketWidths ⟨1, 1, 2⟩ 0.8 (Row.weights [2, 1]) = .ok widths ∧
      widths = (normalizeRow (Row.weights [2, 1])).map (fun w =>
        (w / (normalizeRow (Row.weights [2, 1])).sum) *
          (GridfinityDimension.x_mm ⟨1, 1, 2⟩ -
            (((normalizeRow (Row.weights [2, 1])).length : ℚ) + 1) * 0.8)) ∧
      widths.sum + (((normalizeRow (Row.weights [2, 1])).length : ℚ) + 1) * 0.8 =
        GridfinityDimension.x_mm ⟨1, 1, 2⟩ ∧
      (∃ c : ℚ, widths = (normalizeRow (Row.weights [2, 1])).map (fun w => w * c)) ∧
      (∀ n : ℤ, Row.weights [2, 1] = .count n →
        ∀ a ∈ widths, ∀ b ∈ widths, a = b)) :=
  ⟨by decide, by decide,
   rowBucketWidths_ok ⟨1, 1, 2⟩ 0.8 (Row.weights [2, 1]) (by decide) (by decide)⟩

theorem length_flatMap_const {α β : Type} (l : List α) (f : α → List β) (k : ℕ)
    (h : ∀ a ∈ l, (f a).length = k) : (l.flatMap f).length = l.length * k := by
  induction l with
  | nil => simp
  | cons a t ih =>
    simp only [List.flatMap_cons, List.length_append, List.length_cons,
      h a (by simp), ih (fun x hx => h x (by simp [hx]))]
    ring

theorem tileCenters_length (d : GridfinityDimension) :
    (tileCenters d).length = d.x.toNat * d.y.toNat := by
  unfold tileCenters
  rw [length_flatMap_const _ _ d.y.toNat
    (by intro a _; rw [List.length_map, List.length_range])]
  rw [List.length_range]

/-- C4 counterexample: on a 2×1 grid the claim demands one set of four
screw holes per base tile, i.e. `4·x·y = 8` positions, but
`draw_screw_holes` places a single `rect(26, 26)` on the one
globally-topmost face (`faces('>Z')` selects by global axes; the `zDir`
mutation does not change that), so only 4 counterbored holes are cut —
here instantiated with the rim-face center at the origin — while the
magnet variant does produce 8 per-tile positions. -/
theorem screw_holes_single_set :
    (screwHolePositions (0, 0)).length = 4 ∧
    (magnetHolePositions ⟨2, 1, 2⟩).length = 4 * 2 ∧
    (screwHolePositions (0, 0)).length ≠ (magnetHolePositions ⟨2, 1, 2⟩).length := by
  have h1 : (screwHolePositions (0, 0)).length = 4 := rfl
  have h2 : (magnetHolePositions ⟨2, 1, 2⟩).length = 8 := by
    unfold magnetHolePositions
    rw [length_flatMap_const _ _ 4 (by intro a _; rfl), tileCenters_length]
    rfl
  exact ⟨h1, by rw [h2], by rw [h1, h2]; decide⟩

/-- C4 amended: the magnet-hole centers are the four corners of a 26 mm ×
26 mm square centered on each 42 mm base tile — one set of four per tile,
`4·x·y` positions, independent of the partition layout — and the magnet
holes are `hole(6.5, 2 + 0.5)`.  The screw variant is NOT per-tile:
`draw_screw_holes` cuts a single set of four counterbored holes
(`cboreHole(3, 6.5, 2.4)`: shaft diameter 3 mm, head diameter 6.5 mm) at
the corners of one 26 mm × 26 mm square around the center of the single
globally-topmost face, whatever the grid size. -/
theorem hole_positions_amended (d : GridfinityDimension) (center : ℚ × ℚ) :
    (magnetHolePositions d).length = 4 * (d.x.toNat * d.y.toNat) ∧
    (∀ p ∈ magnetHolePositions d, ∃ c ∈ tileCenters d,
      (p.1 = c.1 - 13 ∨ p.1 = c.1 + 13) ∧ (p.2 = c.2 - 13 ∨ p.2 = c.2 + 13)) ∧
    (∀ c ∈ tileCenters d, ∀ o ∈ rect26Corners, (c.1 + o.1, c.2 + o.2) ∈ magnetHolePositions d) ∧
    (screwHolePositions center).length = 4 ∧
    (∀ p ∈ screwHolePositions center,
      (p.1 = center.1 - 13 ∨ p.1 = center.1 + 13) ∧
      (p.2 = center.2 - 13 ∨ p.2 = center.2 + 13)) ∧
    screw_hole_cbore.diameter = 3 ∧ screw_hole_cbore.cboreDiameter = 6.5 ∧
    screw_hole_cbore.cboreDepth = 2.4 ∧
    magnet_hole_diameter = 6.5 ∧ magnet_hole_depth = 2 + 0.5 := by
  refine ⟨?_, ?_, ?_, rfl, ?_, rfl, rfl, rfl, rfl, rfl⟩
  · unfold magnetHolePositions
    rw [length_flatMap_const _ _ 4 (by intro a _; rfl), tileCenters_length]
    ring
  · intro p hp
    simp only [magnetHolePositions, List.mem_flatMap, List.mem_map] at hp
    obtain ⟨c, hc, o, ho, rfl⟩ := hp
    refine ⟨c, hc, ?_⟩
    simp only [rect26Corners, List.mem_cons, List.not_mem_nil, or_false] at ho
    rcases ho with rfl | rfl | rfl | rfl
    · exact ⟨Or.inl (by ring), Or.inl (by ring)⟩
    · exact ⟨Or.inr (by ring), Or.inl (by ring)⟩
    · exact ⟨Or.inl (by ring), Or.inr (by ring)⟩
    · exact ⟨Or.inr (by ring), Or.inr (by ring)⟩
  · intro c hc o ho
    simp only [magnetHolePositions, List.mem_flatMap, List.mem_map]
    exact ⟨c, hc, o, ho, rfl⟩
  · intro p hp
    simp only [screwHolePositions, List.mem_map] at hp
    obtain ⟨o, ho, rfl⟩ := hp
    simp only [rect26Corners, List.mem_cons, List.not_mem_nil, or_false] at ho
    rcases ho with rfl | rfl | rfl | rfl
    · exact ⟨Or.inl (by ring), Or.inl (by ring)⟩
    · exact ⟨Or.inr (by ring), Or.inl (by ring)⟩
    · exact ⟨Or.inl (by ring), Or.inr (by ring)⟩
    · exact ⟨Or.inr (by ring), Or.inr (by ring)⟩

theorem mem_drawBasesTrace (d : GridfinityDimension) (b : Bool) (op : KernelOp) :
    op ∈ drawBasesTrace d b ↔
      (0 < d.x.toNat * d.y.toNat ∧
        (op = .baseTileSolid ∨ (b = true ∧ op = .magnetHoles) ∨ op = .locateTile)) := by
  unfold drawBasesTrace drawBaseTrace
  constructor
  · intro hm
    rw [List.mem_flatMap] at hm
    obtain ⟨a, ha, hop⟩ := hm
    rw [List.mem_range] at ha
    refine ⟨by omega, ?_⟩
    cases b <;> simp at hop <;> tauto
  · rintro ⟨hn, hop⟩
    rw [List.mem_flatMap]
    refine ⟨0, by rw [List.mem_range]; omega, ?_⟩
    cases b <;> simp <;> tauto

/-- C2: for every `Properties` with a valid dimension, the assembly trace
of `make_gridfinity_box` is exactly: for each of the `x·y` base tiles, the
tile solid with its magnet holes cut (when `make_magnet_hole`) before the
tile is located on the grid; then the bucket cavities; then the screw
holes if and only if `make_screw_hole`; then the finger scoops if and only
if `draw_finger_scoop`; then the label ledges if and only if
`draw_label_ledge`; and the stacking-interface (mate) lip unconditionally
last.  Base tiles, bucket cavities and the mate lip appear for every flag
combination. -/
theorem make_gridfinity_box_order (p : Properties) (h : p.dimension.valid) :
    make_gridfinity_box_trace p =
      (List.range (p.dimension.x.toNat * p.dimension.y.toNat)).flatMap
        (fun _ => KernelOp.baseTileSolid ::
          ((if p.make_magnet_hole then [KernelOp.magnetHoles] else []) ++
            [KernelOp.locateTile])) ++
      [KernelOp.bucketCavities] ++
      (if p.make_screw_hole then [KernelOp.screwHoles] else []) ++
      (if p.draw_finger_scoop then [KernelOp.fingerScoops] else []) ++
      (if p.draw_label_ledge then [KernelOp.labelLedges] else []) ++
      [KernelOp.mateLip] ∧
    KernelOp.baseTileSolid ∈ make_gridfinity_box_trace p ∧
    KernelOp.bucketCavities ∈ make_gridfinity_box_trace p ∧
    (make_gridfinity_box_trace p).getLast? = some KernelOp.mateLip ∧
    (KernelOp.screwHoles ∈ make_gridfinity_box_trace p ↔ p.make_screw_hole = true) ∧
    (KernelOp.fingerScoops ∈ make_gridfinity_box_trace p ↔ p.draw_finger_scoop = true) ∧
    (KernelOp.labelLedges ∈ make_gridfinity_box_trace p ↔ p.draw_label_ledge = true) ∧
    (KernelOp.magnetHoles ∈ make_gridfinity_box_trace p ↔ p.make_magnet_hole = true) := by
  obtain ⟨hx, hy, hz⟩ := h
  have hpos : 0 < p.dimension.x.toNat * p.dimension.y.toNat := by
    have : 0 < p.dimension.x.toNat := by omega
    have : 0 < p.dimension.y.toNat := by omega
    positivity
  constructor
  · unfold make_gridfinity_box_trace drawBasesTrace drawBaseTrace
    simp
  refine ⟨?_, ?_, ?_, ?_, ?_, ?_, ?_⟩
  · unfold make_gridfinity_box_trace
    simp [mem_drawBasesTrace, hpos]
  · unfold make_gridfinity_box_trace
    simp
  · unfold make_gridfinity_box_trace
    rw [show drawBasesTrace p.dimension p.make_magnet_hole ++
          [KernelOp.bucketCavities] ++
          (if p.make_screw_hole then [KernelOp.screwHoles] else []) ++
          (if p.draw_finger_scoop then [KernelOp.fingerScoops] else []) ++
          (if p.draw_label_ledge then [KernelOp.labelLedges] else []) ++
          [KernelOp.mateLip] =
        (drawBasesTrace p.dimension p.make_magnet_hole ++
          [KernelOp.bucketCavities] ++
          (if p.make_screw_hole then [KernelOp.screwHoles] else []) ++
          (if p.draw_finger_scoop then [KernelOp.fingerScoops] else []) ++
          (if p.draw_label_ledge then [KernelOp.labelLedges] else [])) ++
          [KernelOp.mateLip] from by simp [List.append_assoc]]
    exact List.getLast?_concat _
  · unfold make_gridfinity_box_trace
    cases hs : p.make_screw_hole <;> simp [mem_drawBasesTrace]
  · unfold make_gridfinity_box_trace
    cases hs : p.draw_finger_scoop <;> simp [mem_drawBasesTrace]
  · unfold make_gridfinity_box_trace
    cases hs : p.draw_label_ledge <;> simp [mem_drawBasesTrace]
  · unfold make_gridfinity_box_trace
    cases hs : p.make_magnet_hole <;> simp [mem_drawBasesTrace, hpos]

/-- Witness for C2: the order theorem applied to a valid 1×1×2 bin with
every feature flag enabled. -/
theorem make_gridfinity_box_order_witness :
    GridfinityDimension.valid ⟨1, 1, 2⟩ ∧
    (KernelOp.screwHoles ∈ make_gridfinity_box_trace
      ⟨⟨1, 1, 2⟩, [Row.count 1], 0.8, true, true, true, true⟩ ↔ True) := by
  have h : GridfinityDimension.valid ⟨1, 1, 2⟩ := by decide
  have := make_gridfinity_box_order ⟨⟨1, 1, 2⟩, [Row.count 1], 0.8, true, true, true, true⟩ h
  exact ⟨h, by simp [this.2.2.2.2.1]⟩

theorem ledgeRowsGo_append (d : GridfinityDimension) (wt bl mh ll bo : ℚ)
    (l₁ l₂ : List ℕ) (st : ℚ × ℚ) :
    ledgeRowsGo d wt bl mh ll bo (l₁ ++ l₂) st =
      ledgeRowsGo d wt bl mh ll bo l₁ st ++
      ledgeRowsGo d wt bl mh ll bo l₂ (l₁.foldl (ledgeStep d mh ll bo) st) := by
  induction l₁ generalizing st with
  | nil => rfl
  | cons i rest ih => simp [ledgeRowsGo, List.foldl_cons, ih]

theorem ledgeRowsGo_no_last (d : GridfinityDimension) (wt bl mh ll bo : ℚ)
    (l : List ℕ) (st : ℚ × ℚ) (h : ∀ i ∈ l, (i : ℤ) ≠ d.y - 1) :
    ledgeRowsGo d wt bl mh ll bo l st =
      l.map (fun i =>
        { i := i, last_offset := st.1, ledge_height := st.2,
          has_diagonal := decide (st.2 < ll),
          move1 := (-0.5 - (0.5 * (d.y : ℚ) - 1) * (bl + 1), (d.z_mm - wt) / 2),
          move2 := ((i : ℚ) * (bl + 1) - st.1, 0) }) := by
  induction l generalizing st with
  | nil => rfl
  | cons i rest ih =>
    have hi : (i : ℤ) ≠ d.y - 1 := h i (by simp)
    simp only [ledgeRowsGo, ledgeStep, hi, if_false, List.map_cons]
    rw [ih st (fun j hj => h j (by simp [hj]))]

theorem ledgeFoldl_no_last (d : GridfinityDimension) (mh ll bo : ℚ)
    (l : List ℕ) (st : ℚ × ℚ) (h : ∀ i ∈ l, (i : ℤ) ≠ d.y - 1) :
    l.foldl (ledgeStep d mh ll bo) st = st := by
  induction l generalizing st with
  | nil => rfl
  | cons i rest ih =>
    have hi : (i : ℤ) ≠ d.y - 1 := h i (by simp)
    rw [List.foldl_cons]
    rw [show ledgeStep d mh ll bo st i = st from by simp [ledgeStep, hi]]
    exact ih st (fun j hj => h j (by simp [hj]))

/-- C5: for every dimension with at least one row and every wall thickness,
the label-ledge height used for the last (back) row is
`min(max_height, 12.75 + 2.9) = min(max_height, 15.65)` with
`max_height = z_mm - 5 - 5 - wall_thickness`, every earlier row uses
`min(max_height, 12.75)`, a last row exists, and with sufficient clearance
(`max_height ≥ 15.65`) the last row's ledge height is exactly 15.65 mm. -/
theorem draw_label_ledge_heights (d : GridfinityDimension) (wall_thickness : ℚ)
    (h : 1 ≤ d.y) :
    (∀ r ∈ draw_label_ledge d wall_thickness,
      r.ledge_height = if (r.i : ℤ) = d.y - 1
        then min (d.z_mm - 5 - 5 - wall_thickness) 15.65
        else min (d.z_mm - 5 - 5 - wall_thickness) 12.75) ∧
    (∃ r ∈ draw_label_ledge d wall_thickness, (r.i : ℤ) = d.y - 1) ∧
    (15.65 ≤ d.z_mm - 5 - 5 - wall_thickness →
      ∀ r ∈ draw_label_ledge d wall_thickness,
        (r.i : ℤ) = d.y - 1 → r.ledge_height = 15.65) := by
  have hm : d.y.toNat = (d.y.toNat - 1) + 1 := by omega
  have hlast : ((d.y.toNat - 1 : ℕ) : ℤ) = d.y - 1 := by omega
  have hne : ∀ i ∈ List.range (d.y.toNat - 1), (i : ℤ) ≠ d.y - 1 := by
    intro i hi
    rw [List.mem_range] at hi
    omega
  have hsplit : draw_label_ledge d wall_thickness =
      (List.range (d.y.toNat - 1)).map (fun i =>
        { i := i, last_offset := (0 : ℚ),
          ledge_height := min (d.z_mm - 5 - 5 - wall_thickness) (12 + 0.75),
          has_diagonal :=
            decide (min (d.z_mm - 5 - 5 - wall_thickness) (12 + 0.75) < 12 + 0.75),
          move1 := (-0.5 - (0.5 * (d.y : ℚ) - 1) *
              ((d.y_mm - ((d.y : ℚ) + 1) * wall_thickness) / (d.y : ℚ) + 1),
            (d.z_mm - wall_thickness) / 2),
          move2 := ((i : ℚ) *
              ((d.y_mm - ((d.y : ℚ) + 1) * wall_thickness) / (d.y : ℚ) + 1) - 0,
            0) }) ++
      [{ i := d.y.toNat - 1, last_offset := (2.9 : ℚ),
         ledge_height := min (d.z_mm - 5 - 5 - wall_thickness) (12 + 0.75 + 2.9),
         has_diagonal :=
           decide (min (d.z_mm - 5 - 5 - wall_thickness) (12 + 0.75 + 2.9) < 12 + 0.75),
         move1 := (-0.5 - (0.5 * (d.y : ℚ) - 1) *
             ((d.y_mm - ((d.y : ℚ) + 1) * wall_thickness) / (d.y : ℚ) + 1),
           (d.z_mm - wall_thickness) / 2),
         move2 := (((d.y.toNat - 1 : ℕ) : ℚ) *
             ((d.y_mm - ((d.y : ℚ) + 1) * wall_thickness) / (d.y : ℚ) + 1) - 2.9,
           0) }] := by
    unfold draw_label_ledge
    rw [hm, List.range_succ, ledgeRowsGo_append,
      ledgeFoldl_no_last d _ _ _ _ _ hne,
      ledgeRowsGo_no_last d _ _ _ _ _ _ _ hne]
    simp [ledgeRowsGo, ledgeStep, hlast]
  refine ⟨?_, ?_, ?_⟩
  · intro r hr
    rw [hsplit, List.mem_append] at hr
    rcases hr with hr | hr
    · rw [List.mem_map] at hr
      obtain ⟨i, hi, rfl⟩ := hr
      rw [if_neg (hne i hi)]
      norm_num
    · rw [List.mem_singleton] at hr
      subst hr
      rw [if_pos hlast]
      norm_num
  · refine ⟨_, by rw [hsplit]; exact List.mem_append_right _ (List.mem_singleton.mpr rfl), hlast⟩
  · intro hcl r hr hri
    rw [hsplit, List.mem_append] at hr
    rcases hr with hr | hr
    · rw [List.mem_map] at hr
      obtain ⟨i, hi, rfl⟩ := hr
      exact absurd hri (hne i hi)
    · rw [List.mem_singleton] at hr
      subst hr
      show min (d.z_mm - 5 - 5 - wall_thickness) (12 + 0.75 + 2.9) = 15.65
      rw [show (12 + 0.75 + 2.9 : ℚ) = 15.65 from by norm_num]
      exact min_eq_right hcl

/-- Witness for C5: the theorem applied to a 1×1×4 bin with 0.8 mm walls,
whose single row is the last row. -/
theorem draw_label_ledge_heights_witness :
    (1 : ℤ) ≤ (⟨1, 1, 4⟩ : GridfinityDimension).y ∧
    (∃ r ∈ draw_label_ledge ⟨1, 1, 4⟩ 0.8,
      (r.i : ℤ) = (⟨1, 1, 4⟩ : GridfinityDimension).y - 1) :=
  ⟨by decide, (draw_label_ledge_heights ⟨1, 1, 4⟩ 0.8 (by decide)).2.1⟩

theorem sketchRow_rect_x (d : GridfinityDimension) (wt bucket_y y_origin : ℚ) :
    ∀ (x_origin : ℚ) (l : List ℚ),
      (sketchRow d wt bucket_y y_origin x_origin l).2.map Sketch.rect_x = l := by
  intro x_origin l
  induction l generalizing x_origin with
  | nil => rfl
  | cons a t ih => simp [sketchRow, draw_bucket_sketch, ih]

theorem sketchRow_length (d : GridfinityDimension) (wt bucket_y y_origin : ℚ) :
    ∀ (x_origin : ℚ) (l : List ℚ),
      (sketchRow d wt bucket_y y_origin x_origin l).2.length = l.length := by
  intro x_origin l
  induction l generalizing x_origin with
  | nil => rfl
  | cons a t ih => simp [sketchRow, ih]

theorem rowBucketWidths_length (d : GridfinityDimension) (wt : ℚ) (row : Row)
    (widths : List ℚ) (h : rowBucketWidths d wt row = .ok widths) :
    widths.length = (normalizeRow row).length := by
  unfold rowBucketWidths at h
  dsimp only at h
  by_cases h1 : (normalizeRow row).isEmpty = true
  · rw [if_pos h1] at h
    cases h
    rw [List.isEmpty_iff.mp h1]
  · rw [if_neg h1] at h
    by_cases h2 : (normalizeRow row).sum = 0
    · rw [if_pos h2] at h
      exact absurd h (by simp)
    · rw [if_neg h2] at h
      simp only [Except.ok.injEq] at h
      rw [← h, List.length_map]

theorem sketchRow_warn_mem (d : GridfinityDimension) (wt bucket_y y_origin : ℚ) :
    ∀ (x_origin : ℚ) (l : List ℚ) (w : GWarning),
      (w ∈ (sketchRow d wt bucket_y y_origin x_origin l).1 ↔
        (w = .smallDimensionsPerBucket ∧ ∃ x ∈ l, x < small_drawer_width)) := by
  intro x_origin l
  induction l generalizing x_origin with
  | nil => simp [sketchRow]
  | cons a t ih =>
    intro w
    by_cases ha : a < small_drawer_width
    · simp [sketchRow, draw_bucket_sketch, ha, ih]
      tauto
    · simp [sketchRow, draw_bucket_sketch, ha, ih]

theorem sketchRows_spec (d : GridfinityDimension) (wt : ℚ) (n : ℕ) :
    ∀ (l : List Row) (y_origin : ℚ) (ws : List GWarning) (ss : List Sketch),
      sketchRows d wt n y_origin l = .ok (ws, ss) →
      ss.length = total_buckets l ∧
      (∀ w ∈ ws, w = .smallDimensionsPerBucket) ∧
      (GWarning.smallDimensionsPerBucket ∈ ws ↔
        ∃ s ∈ ss, s.rect_x < small_drawer_width) := by
  intro l
  induction l with
  | nil =>
    intro y_origin ws ss h
    rw [sketchRows] at h
    simp only [Except.ok.injEq, Prod.mk.injEq] at h
    obtain ⟨rfl, rfl⟩ := h
    simp [total_buckets]
  | cons row rest ih =>
    intro y_origin ws ss h
    rw [sketchRows] at h
    cases hw : rowBucketWidths d wt row with
    | error e => rw [hw] at h; exact absurd h (by simp)
    | ok widths =>
      rw [hw] at h
      dsimp only at h
      cases hr : sketchRows d wt n
          (y_origin + (d.y_mm - ((n : ℚ) + 1) * wt) / (n : ℚ) + wt) rest with
      | error e => rw [hr] at h; exact absurd h (by simp)
      | ok later =>
        rw [hr] at h
        simp only [Except.ok.injEq, Prod.mk.injEq] at h
        obtain ⟨rfl, rfl⟩ := h
        have hwlen := rowBucketWidths_length d wt row widths hw
        have hihs := ih _ later.1 later.2 (by rw [hr])
        constructor
        · rw [List.length_append, total_buckets, List.map_cons, List.sum_cons]
          rw [sketchRow_length, hwlen, hihs.1, total_buckets]
        constructor
        · intro w hwmem
          rw [List.mem_append] at hwmem
          rcases hwmem with hwmem | hwmem
          · exact ((sketchRow_warn_mem d wt _ y_origin wt widths w).mp hwmem).1
          · exact hihs.2.1 w hwmem
        · rw [List.mem_append, sketchRow_warn_mem d wt _ y_origin wt widths,
            hihs.2.2]
          constructor
          · rintro (⟨-, x, hx, hxlt⟩ | ⟨s, hs, hslt⟩)
            · have : x ∈ (sketchRow d wt ((d.y_mm - ((n : ℚ) + 1) * wt) / (n : ℚ))
                  y_origin wt widths).2.map Sketch.rect_x := by
                rw [sketchRow_rect_x]; exact hx
              rw [List.mem_map] at this
              obtain ⟨s, hs, rfl⟩ := this
              exact ⟨s, List.mem_append_left _ hs, hxlt⟩
            · exact ⟨s, List.mem_append_right _ hs, hslt⟩
          · rintro ⟨s, hs, hslt⟩
            rw [List.mem_append] at hs
            rcases hs with hs | hs
            · refine Or.inl ⟨rfl, s.rect_x, ?_, hslt⟩
              rw [← sketchRow_rect_x d wt ((d.y_mm - ((n : ℚ) + 1) * wt) / (n : ℚ))
                y_origin wt widths, List.mem_map]
              exact ⟨s, hs, rfl⟩
            · exact Or.inr ⟨s, hs, hslt⟩

/-- C10: the aggregate small-dimensions warning at the end of
`draw_buckets` is unreachable: `is_drawer_too_small` is initialized to
`False` and never assigned, so whenever `draw_buckets` succeeds, its
warning list never contains the aggregate warning — every warning emitted
is the per-bucket one raised inside `draw_bucket_sketch`. -/
theorem draw_buckets_aggregate_unreachable (d : GridfinityDimension)
    (divs : Divisions) (wt : ℚ) (ws : List GWarning) (ss : List Sketch)
    (h : draw_buckets d divs wt = .ok (ws, ss)) :
    GWarning.smallDimensionsAggregate ∉ ws ∧
    (∀ w ∈ ws, w = .smallDimensionsPerBucket) := by
  unfold draw_buckets at h
  cases hs : sketchRows d wt divs.length wt divs with
  | error e => rw [hs] at h; exact absurd h (by simp)
  | ok r =>
    rw [hs] at h
    simp only [if_false, Except.ok.injEq, Prod.mk.injEq] at h
    obtain ⟨rfl, rfl⟩ := h
    have := (sketchRows_spec d wt divs.length divs wt r.1 r.2 (by rw [hs])).2.1
    refine ⟨fun hmem => ?_, this⟩
    have := this _ hmem
    exact absurd this (by simp)

/-- Witness for C10: a successful `draw_buckets` run whose warning list
contains no aggregate warning. -/
theorem draw_buckets_aggregate_unreachable_witness :
    draw_buckets ⟨1, 1, 2⟩ [] 0.8 = .ok ([], []) ∧
    GWarning.smallDimensionsAggregate ∉ ([] : List GWarning) :=
  ⟨rfl,
   (draw_buckets_aggregate_unreachable ⟨1, 1, 2⟩ [] 0.8 [] [] rfl).1⟩

/-- C7 counterexample: with wall thickness 13.25 on a 1×1×2 bin the single
bucket width is exactly 15 mm; the claim ("advisory if and only if some
bucket width ≤ 15 mm") demands an advisory here, but the source's strict
comparison `x_mm < 15` emits none — `draw_buckets` succeeds with an empty
warning list while producing the bucket sketch of width 15 ≤ 15. -/
theorem draw_buckets_advisory_boundary :
    draw_buckets ⟨1, 1, 2⟩ [Row.count 1] 13.25 =
      .ok ([], [{ rect_x := 15, rect_y := 15, fillet_radius := -9.5,
                  move1 := (7.5, -7.5), move2 := (-7.5, 7.5) }]) ∧
    (15 : ℚ) ≤ 15 := by
  refine ⟨?_, le_refl _⟩
  have hrow : rowBucketWidths ⟨1, 1, 2⟩ 13.25 (Row.count 1) = .ok [15] := by
    unfold rowBucketWidths normalizeRow
    norm_num [GridfinityDimension.x_mm]
  have hrows : sketchRows ⟨1, 1, 2⟩ 13.25 ([Row.count 1].length) 13.25 [Row.count 1] =
      .ok ([], [{ rect_x := 15, rect_y := 15, fillet_radius := -9.5,
                  move1 := (7.5, -7.5), move2 := (-7.5, 7.5) }]) := by
    rw [sketchRows, hrow]
    dsimp only
    rw [sketchRows]
    norm_num [sketchRow, draw_bucket_sketch, small_drawer_width,
      GridfinityDimension.x_mm, GridfinityDimension.y_mm, Sketch.mk.injEq,
      Prod.mk.injEq]
  unfold draw_buckets
  rw [hrows]
  rfl

/-- C7 amended: the small-dimensions advisory is emitted if and only if
some computed bucket width is STRICTLY below 15 mm (a width of exactly
15 mm does not trigger it); it is non-fatal: whenever `draw_buckets`
succeeds its sketch list has exactly one sketch per bucket, warnings or
not. -/
theorem draw_buckets_advisory (d : GridfinityDimension) (divs : Divisions)
    (wt : ℚ) (ws : List GWarning) (ss : List Sketch)
    (h : draw_buckets d divs wt = .ok (ws, ss)) :
    ss.length = total_buckets divs ∧
    (GWarning.smallDimensionsPerBucket ∈ ws ↔
      ∃ s ∈ ss, s.rect_x < small_drawer_width) ∧
    (ws ≠ [] ↔ ∃ s ∈ ss, s.rect_x < small_drawer_width) := by
  unfold draw_buckets at h
  cases hs : sketchRows d wt divs.length wt divs with
  | error e => rw [hs] at h; exact absurd h (by simp)
  | ok r =>
    rw [hs] at h
    simp only [if_false, Except.ok.injEq, Prod.mk.injEq] at h
    obtain ⟨rfl, rfl⟩ := h
    have hspec := sketchRows_spec d wt divs.length divs wt r.1 r.2 (by rw [hs])
    refine ⟨hspec.1, hspec.2.2, ?_⟩
    rw [← hspec.2.2]
    constructor
    · intro hne
      obtain ⟨w, hw⟩ := List.exists_mem_of_ne_nil _ hne
      rw [← hspec.2.1 w hw]
      exact hw
    · exact fun hmem => List.ne_nil_of_mem hmem

/-- Witness for C7's amended theorem: a successful `draw_buckets` run with
no warnings whose sketch count matches the bucket count. -/
theorem draw_buckets_advisory_witness :
    draw_buckets ⟨1, 1, 2⟩ [Row.count 0] 0.8 = .ok ([], []) ∧
    ([] : List Sketch).length = total_buckets [Row.count 0] :=
  ⟨rfl, (draw_buckets_advisory ⟨1, 1, 2⟩ [Row.count 0] 0.8 [] [] rfl).1⟩

/-- C9: division weights are not validated: a non-empty weights row whose
sum is 0 makes `draw_buckets` fail with Python's `ZeroDivisionError` (an
arithmetic error, not a structured input error), while an integer row `0`
silently normalizes to zero buckets and succeeds. -/
theorem zero_weight_rows (d : GridfinityDimension) (wt : ℚ) (ws : List ℚ)
    (hne : ws ≠ []) (hsum : ws.sum = 0) :
    rowBucketWidths d wt (.weights ws) = .error .zeroDivision ∧
    draw_buckets d [Row.weights ws] wt = .error .zeroDivision ∧
    rowBucketWidths d wt (.count 0) = .ok [] ∧
    draw_buckets d [Row.count 0] wt = .ok ([], []) := by
  have h1 : rowBucketWidths d wt (.weights ws) = .error .zeroDivision := by
    cases ws with
    | nil => exact absurd rfl hne
    | cons a t =>
      unfold rowBucketWidths normalizeRow
      simp only [List.isEmpty_cons, if_false, Bool.false_eq_true]
      rw [if_pos hsum]
  refine ⟨h1, ?_, rfl, rfl⟩
  have h2 : sketchRows d wt ([Row.weights ws].length) wt [Row.weights ws] =
      .error .zeroDivision := by
    rw [sketchRows, h1]
  unfold draw_buckets
  rw [h2]

/-- Witness for C9: the weights row `[0]` on a 1×1×2 bin. -/
theorem zero_weight_rows_witness :
    ([0] : List ℚ) ≠ [] ∧ ([0] : List ℚ).sum = 0 ∧
    draw_buckets ⟨1, 1, 2⟩ [Row.weights [0]] 0.8 = .error .zeroDivision :=
  ⟨by decide, by simp,
   (zero_weight_rows ⟨1, 1, 2⟩ 0.8 [0] (by decide) (by simp)).2.1⟩

end Gridfinity
